import Mathlib

/-!
Verification development for the MILVRVU productivity-dashboard loaders.

The embedding models the data-loading and filtering pipeline of
`src/app.py` (`load_data`, `filter_data`) and `src/rvu.py` (`load_data`
and the display aggregates).  Strings are modelled as lists of character
code points (`PyStr`), pandas cells as a tagged union (`Cell`), NaN-able
numeric columns as `Option ℚ`, and timestamps as rational day counts.
-/

namespace MILV

/-- A Python string, modelled as its list of character code points. -/
abbrev PyStr := List Nat

/-- Code-point list of a Lean string literal. -/
def ofStr (s : String) : PyStr := s.data.map Char.toNat

/-- Whitespace test for the default character set of Python `str.strip`,
restricted to the ASCII whitespace characters. -/
def isSpaceB (c : Nat) : Bool :=
  decide (c = 32 ∨ c = 9 ∨ c = 10 ∨ c = 13 ∨ c = 11 ∨ c = 12)

/-- ASCII alphabetic test, as `str.title` uses to find word starts. -/
def isAlphaB (c : Nat) : Bool :=
  decide ((65 ≤ c ∧ c ≤ 90) ∨ (97 ≤ c ∧ c ≤ 122))

/-- ASCII upper-casing of one code point. -/
def toUpperN (c : Nat) : Nat := if 97 ≤ c ∧ c ≤ 122 then c - 32 else c

/-- ASCII lower-casing of one code point. -/
def toLowerN (c : Nat) : Nat := if 65 ≤ c ∧ c ≤ 90 then c + 32 else c

/-- Remove trailing whitespace (the right half of Python `str.strip`). -/
def rstripN : PyStr → PyStr
  | [] => []
  | c :: l => if (rstripN l).isEmpty ∧ isSpaceB c then [] else c :: rstripN l

/-- Python `str.strip`: drop leading and trailing whitespace. -/
def stripN (l : PyStr) : PyStr := rstripN (l.dropWhile isSpaceB)

/-- One character of Python `str.title`; `prev` records whether the
preceding character was alphabetic (inside a word). -/
def titleChar (prev : Bool) (c : Nat) : Nat :=
  if isAlphaB c then (if prev then toLowerN c else toUpperN c) else c

/-- Worker of Python `str.title`, threading the in-word flag. -/
def titleAux (prev : Bool) : PyStr → PyStr
  | [] => []
  | c :: l => titleChar prev c :: titleAux (isAlphaB c) l

/-- Python `str.title`. -/
def titleN (l : PyStr) : PyStr := titleAux false l

/-- The author-name normalization of both loaders:
`df["author"].astype(str).str.strip().str.title()`
(src/app.py line 43; src/rvu.py lines 59-60). -/
def normalizeAuthor (l : PyStr) : PyStr := titleN (stripN l)

/-!
Duration parsing.  No duration-parsing code exists under `src/`; the
definitions below are modelled from the spec (section 4.2 DurationParser).
-/

/-- ASCII decimal digit test. -/
def isDigitB (c : Nat) : Bool := decide (48 ≤ c ∧ c ≤ 57)

/-- Parse a nonempty all-digit code-point list as a natural number. -/
def parseNatL (l : PyStr) : Option Nat :=
  if l.isEmpty ∨ ¬ l.all isDigitB then none
  else some (l.foldl (fun a c => a * 10 + (c - 48)) 0)

/-- Worker for splitting a code-point list on a separator code point. -/
def splitAux (sep : Nat) : PyStr → PyStr → List PyStr
  | [], acc => [acc.reverse]
  | c :: cs, acc =>
    if c = sep then acc.reverse :: splitAux sep cs []
    else splitAux sep cs (c :: acc)

/-- Split a code-point list on a separator, like Python `str.split(sep)`. -/
def splitOnN (sep : Nat) (l : PyStr) : List PyStr := splitAux sep l []

/-- Decimal digits of a natural number, most significant first. -/
def natDigits (n : Nat) : PyStr :=
  if n < 10 then [n + 48]
  else natDigits (n / 10) ++ [n % 10 + 48]
decreasing_by exact Nat.div_lt_self (by omega) (by omega)

/-- Two-digit zero-padded rendering, as in a `HH:MM:SS` clock string. -/
def natDigits2 (n : Nat) : PyStr :=
  if n < 10 then [48, n + 48] else natDigits n

/-- Modelled from the spec: parse a bare decimal numeral (integer part,
optionally a dot and a fraction part) as a rational. -/
def parseDecQ (l : PyStr) : Option ℚ :=
  match splitOnN 46 l with
  | [ip] => (parseNatL ip).map (fun n => (n : ℚ))
  | [ip, fp] =>
    match parseNatL ip, parseNatL fp with
    | some a, some b => some ((a : ℚ) + (b : ℚ) / (10 : ℚ) ^ fp.length)
    | _, _ => none
  | _ => none

/-- Modelled from the spec: parse a `HH:MM:SS` clock string to minutes,
`hours*60 + minutes + seconds/60`. -/
def parseHMS (l : PyStr) : Option ℚ :=
  match splitOnN 58 l with
  | [hh, mm, ss] =>
    match parseNatL hh, parseNatL mm, parseNatL ss with
    | some h, some m, some s => some ((h : ℚ) * 60 + (m : ℚ) + (s : ℚ) / 60)
    | _, _, _ => none
  | _ => none

/-- Modelled from the spec: the DurationParser on a text cell.  `HH:MM:SS`
gives `hours*60 + minutes + seconds/60` minutes; `D.HH:MM:SS` adds a
`D*24*60` minutes offset; a bare decimal means fractional hours
(`value * 60`); anything else is unparsable (`none`, never an error). -/
def parseDuration (l : PyStr) : Option ℚ :=
  if l.contains 58 then
    if l.contains 46 then
      match splitOnN 46 l with
      | [dd, rest] =>
        match parseNatL dd, parseHMS rest with
        | some d, some v => some ((d : ℚ) * 1440 + v)
        | _, _ => none
      | _ => none
    else parseHMS l
  else (parseDecQ l).map (fun q => q * 60)

/-- Modelled from the spec: the DurationParser on a raw cell; a
`timedelta`-shaped numeric input holds total seconds, giving
`value / 60` minutes; empty or null input is unparsable. -/
def parseDurationText (isNum : Bool) (q : ℚ) (l : PyStr) : Option ℚ :=
  if isNum then some (q / 60) else parseDuration l

/-- Clock rendering of `h` hours, `m` minutes, `s` seconds as the
code points of `H:MM:SS`. -/
def mkHMS (h m s : Nat) : PyStr :=
  natDigits h ++ 58 :: (natDigits2 m ++ 58 :: natDigits2 s)

/-- Clock rendering with a leading day count, `D.H:MM:SS`. -/
def mkDHMS (d h m s : Nat) : PyStr := natDigits d ++ 46 :: mkHMS h m s

/-!
The loading pipeline of `load_data` in src/app.py and src/rvu.py.
-/

/-- A raw spreadsheet cell: empty/NaN, a number, free text, or a
date-like value carrying its timestamp as a rational day count. -/
inductive Cell where
  | blank
  | num (q : ℚ)
  | text (s : PyStr)
  | temporal (t : ℚ)
deriving DecidableEq

/-- Model of `pd.to_numeric(..., errors="coerce")` on one cell: numbers
pass through, numeric-looking text is parsed, everything else becomes
NaN (`none`).  Text parsing covers unsigned decimal numerals. -/
def numCoerce : Cell → Option ℚ
  | Cell.blank => none
  | Cell.num q => some q
  | Cell.text s => parseDecQ s
  | Cell.temporal _ => none

/-- Model of `pd.to_datetime(..., errors="coerce")` on one cell:
date-like cells carry their parsed timestamp, everything else is NaT
(`none`). -/
def dateCoerce : Cell → Option ℚ
  | Cell.temporal t => some t
  | _ => none

/-- Model of `.fillna(0)` on one entry of a numeric column. -/
def fillna0 (x : Option ℚ) : Option ℚ := some (x.getD 0)

/-- Floor of a rational to a whole day, the effect of `.dt.normalize()`
(strip the time-of-day component). -/
def floorQ (t : ℚ) : ℤ := Int.fdiv t.num (t.den : ℤ)

/-- Truncation toward zero, the effect of `.astype(int)` on a float:
`Int.div` is T-division, so `-1/2` truncates to `0` and `-3/2` to `-1`,
as the C cast does. -/
def truncQ (q : ℚ) : ℤ := Int.div q.num (q.den : ℤ)

/-- One input row, keyed by the canonical columns of the loaders. -/
structure RawRow where
  date : Cell
  author : PyStr
  procedure : Cell
  points : Cell
  shift : Cell
  pointsHalfDay : Cell
  procedureHalf : Cell
deriving DecidableEq

/-- One loaded row of src/rvu.py `load_data`: date normalized, author
title-cased, numeric columns coerced with NaN filled by 0. -/
structure LoadedRow where
  date : ℚ
  author : PyStr
  procedure : Option ℚ
  points : Option ℚ
  shift : Option ℚ
  pointsHalfDay : Option ℚ
  procedureHalf : Option ℚ
deriving DecidableEq

/-- One loaded row of src/app.py `load_data`, whose line 44 additionally
casts the shift column to int. -/
structure LoadedRowApp where
  date : ℚ
  author : PyStr
  procedure : Option ℚ
  points : Option ℚ
  shift : ℤ
  pointsHalfDay : Option ℚ
  procedureHalf : Option ℚ
deriving DecidableEq

/-- Row processing of src/rvu.py `load_data` lines 42-60: coerce the
date and drop the row when it is NaT, else normalize the date, coerce
numeric columns with `.fillna(0)`, and normalize the author name. -/
def processRow_rvu (r : RawRow) : Option LoadedRow :=
  match dateCoerce r.date with
  | none => none
  | some t => some {
      date := (floorQ t : ℚ)
      author := normalizeAuthor r.author
      procedure := fillna0 (numCoerce r.procedure)
      points := fillna0 (numCoerce r.points)
      shift := fillna0 (numCoerce r.shift)
      pointsHalfDay := fillna0 (numCoerce r.pointsHalfDay)
      procedureHalf := fillna0 (numCoerce r.procedureHalf) }

/-- Row processing of src/app.py `load_data` lines 38-44; line 44
re-coerces the already-filled shift column and casts it to int. -/
def processRow_app (r : RawRow) : Option LoadedRowApp :=
  match dateCoerce r.date with
  | none => none
  | some t => some {
      date := (floorQ t : ℚ)
      author := normalizeAuthor r.author
      procedure := fillna0 (numCoerce r.procedure)
      points := fillna0 (numCoerce r.points)
      shift := truncQ ((numCoerce r.shift).getD 0)
      pointsHalfDay := fillna0 (numCoerce r.pointsHalfDay)
      procedureHalf := fillna0 (numCoerce r.procedureHalf) }

/-- The required canonical columns of both loaders (src/app.py line 17,
src/rvu.py lines 28-29). -/
def requiredCols : List PyStr :=
  [ofStr "date", ofStr "author", ofStr "procedure", ofStr "points",
   ofStr "shift", ofStr "points/half day", ofStr "procedure/half"]

/-- Header normalization used for the column check:
`df.columns.str.strip()` then case-insensitive comparison via
`.str.lower()` (src/app.py line 32, src/rvu.py lines 24-25). -/
def headerNorm (h : PyStr) : PyStr := (stripN h).map toLowerN

/-- The canonical columns with no matching source header. -/
def missingCols (hs : List PyStr) : List PyStr :=
  requiredCols.filter (fun c => decide (c ∉ hs.map headerNorm))

/-- Outcome of `load_data`: either an error naming the missing columns,
or the loaded rows together with the operator-visible messages emitted
on the success path. -/
inductive LoadResult (ρ : Type) where
  | failure (missing : List PyStr)
  | success (rows : List ρ) (messages : List PyStr)
deriving DecidableEq

/-- Whether a load outcome is a success. -/
def LoadResult.isSuccess {ρ : Type} : LoadResult ρ → Bool
  | LoadResult.failure _ => false
  | LoadResult.success _ _ => true

/-- src/app.py `load_data`: validate headers (fatal, naming every
missing column) and process the rows.  The success path emits no
operator messages. -/
def loadData_app (hs : List PyStr) (rows : List RawRow) : LoadResult LoadedRowApp :=
  if (missingCols hs).isEmpty then
    LoadResult.success (rows.filterMap processRow_app) []
  else LoadResult.failure (missingCols hs)

/-- src/rvu.py `load_data`: same structure as the app loader but with
the rvu row processing (no int cast of shift). -/
def loadData_rvu (hs : List PyStr) (rows : List RawRow) : LoadResult LoadedRow :=
  if (missingCols hs).isEmpty then
    LoadResult.success (rows.filterMap processRow_rvu) []
  else LoadResult.failure (missingCols hs)

/-- src/app.py `filter_data` lines 70-78: keep rows whose date is within
the inclusive range, then filter by provider only when the selection is
non-empty. -/
def filter_data (df : List LoadedRowApp) (d1 d2 : ℚ) (provs : List PyStr) :
    List LoadedRowApp :=
  let byDate := df.filter (fun r => decide (d1 ≤ r.date) && decide (r.date ≤ d2))
  if provs.isEmpty then byDate
  else byDate.filter (fun r => decide (r.author ∈ provs))

/-- Pandas `Series.mean()` with its default `skipna=True`: NaN entries
are excluded from numerator and denominator, and an all-NaN or empty
column has mean NaN (`none`). -/
def meanOpt (xs : List (Option ℚ)) : Option ℚ :=
  let vs := xs.filterMap id
  if vs.isEmpty then none else some (vs.sum / (vs.length : ℚ))

/-- A numeric column as loaded: each cell coerced and NaN filled by 0
(src/app.py lines 41-42, src/rvu.py lines 55-56). -/
def loadNumCell (c : Cell) : Option ℚ := fillna0 (numCoerce c)

/-!
Concrete demonstration data used by witnesses and counterexamples.
-/

/-- A header list matching every required column up to case and
surrounding whitespace. -/
def demoHeaders : List PyStr :=
  [ofStr " Date ", ofStr "Author", ofStr "Procedure", ofStr "Points",
   ofStr "Shift", ofStr "Points/Half Day", ofStr "Procedure/Half"]

/-- A well-formed input row; its date carries a half-day time-of-day
component (timestamp 5/2 days). -/
def goodRow : RawRow :=
  { date := Cell.temporal (mkRat 5 2), author := ofStr "jane doe",
    procedure := Cell.num 3, points := Cell.num 8, shift := Cell.num 1,
    pointsHalfDay := Cell.num 4, procedureHalf := Cell.num 2 }

/-- The image of `goodRow` under the app loader. -/
def goodLoadedApp : LoadedRowApp :=
  { date := 2, author := ofStr "Jane Doe", procedure := some 3,
    points := some 8, shift := 1, pointsHalfDay := some 4,
    procedureHalf := some 2 }

/-- A row whose date cell is empty, hence unparsable (NaT). -/
def badDateRow : RawRow := { goodRow with date := Cell.blank }

/-- A row with a clean date but an unparsable procedure count. -/
def badNumRow : RawRow :=
  { goodRow with
    date := Cell.temporal 2,
    procedure := Cell.text (ofStr "abc") }

/-- The image of `badNumRow` under the rvu loader. -/
def badNumLoaded : LoadedRow :=
  { date := 2, author := ofStr "Jane Doe", procedure := some 0,
    points := some 8, shift := some 1, pointsHalfDay := some 4,
    procedureHalf := some 2 }

/-- A row whose shift weight is the fractional half-day value 1/2. -/
def halfShiftRow : RawRow :=
  { goodRow with
    date := Cell.temporal 2,
    shift := Cell.num (mkRat 1 2) }


theorem isAlphaB_toUpperN (c : Nat) : isAlphaB (toUpperN c) = isAlphaB c := by
  unfold isAlphaB toUpperN
  split <;> (rw [decide_eq_decide] <;> omega)

theorem isAlphaB_toLowerN (c : Nat) : isAlphaB (toLowerN c) = isAlphaB c := by
  unfold isAlphaB toLowerN
  split <;> (rw [decide_eq_decide] <;> omega)

theorem isAlphaB_titleChar (b : Bool) (c : Nat) :
    isAlphaB (titleChar b c) = isAlphaB c := by
  unfold titleChar
  split
  · cases b <;> simp [isAlphaB_toUpperN, isAlphaB_toLowerN]
  · rfl

theorem isSpaceB_toUpperN (c : Nat) : isSpaceB (toUpperN c) = isSpaceB c := by
  unfold isSpaceB toUpperN
  split <;> (rw [decide_eq_decide] <;> omega)

theorem isSpaceB_toLowerN (c : Nat) : isSpaceB (toLowerN c) = isSpaceB c := by
  unfold isSpaceB toLowerN
  split <;> (rw [decide_eq_decide] <;> omega)

theorem isSpaceB_titleChar (b : Bool) (c : Nat) :
    isSpaceB (titleChar b c) = isSpaceB c := by
  unfold titleChar
  split
  · cases b <;> simp [isSpaceB_toUpperN, isSpaceB_toLowerN]
  · rfl

theorem toUpperN_toUpperN (c : Nat) : toUpperN (toUpperN c) = toUpperN c := by
  unfold toUpperN
  split
  · split <;> omega
  · rfl

theorem toLowerN_toLowerN (c : Nat) : toLowerN (toLowerN c) = toLowerN c := by
  unfold toLowerN
  split
  · split <;> omega
  · rfl

theorem titleChar_titleChar (b : Bool) (c : Nat) :
    titleChar b (titleChar b c) = titleChar b c := by
  unfold titleChar
  by_cases h : isAlphaB c = true
  · cases b <;>
      simp [h, isAlphaB_toUpperN, isAlphaB_toLowerN, toUpperN_toUpperN,
        toLowerN_toLowerN]
  · simp [h]

theorem titleAux_idem (b : Bool) (l : PyStr) :
    titleAux b (titleAux b l) = titleAux b l := by
  induction l generalizing b with
  | nil => rfl
  | cons c l ih =>
    simp [titleAux, titleChar_titleChar, isAlphaB_titleChar, ih]

theorem map_isSpaceB_titleAux (b : Bool) (l : PyStr) :
    (titleAux b l).map isSpaceB = l.map isSpaceB := by
  induction l generalizing b with
  | nil => rfl
  | cons c l ih => simp [titleAux, isSpaceB_titleChar, ih]

theorem head_not_space {a : Nat} {l : PyStr}
    (h : List.dropWhile isSpaceB (a :: l) = a :: l) : isSpaceB a = false := by
  have := List.dropWhile_eq_self_iff.mp h (by simp)
  simpa using this

theorem dropWhile_eq_self_shape {u v : PyStr}
    (h : u.map isSpaceB = v.map isSpaceB)
    (hu : u.dropWhile isSpaceB = u) : v.dropWhile isSpaceB = v := by
  cases u with
  | nil =>
    cases v with
    | nil => rfl
    | cons c v => simp at h
  | cons a u =>
    cases v with
    | nil => simp at h
    | cons c v =>
      simp only [List.map_cons, List.cons.injEq] at h
      have ha : isSpaceB a = false := head_not_space hu
      rw [List.dropWhile_cons, if_neg (by simp [← h.1, ha])]

theorem rstripN_eq_self_shape {u v : PyStr}
    (h : u.map isSpaceB = v.map isSpaceB)
    (hu : rstripN u = u) : rstripN v = v := by
  induction u generalizing v with
  | nil =>
    cases v with
    | nil => rfl
    | cons c v => simp at h
  | cons a u ih =>
    cases v with
    | nil => simp at h
    | cons c v =>
      simp only [List.map_cons, List.cons.injEq] at h
      rw [rstripN] at hu
      by_cases hc : (rstripN u).isEmpty = true ∧ isSpaceB a = true
      · rw [if_pos hc] at hu
        exact absurd hu (by simp)
      · rw [if_neg hc] at hu
        have htail : rstripN u = u := by
          simpa using congrArg List.tail hu
        have hv : rstripN v = v := ih h.2 htail
        rw [rstripN, if_neg, hv]
        intro hcv
        apply hc
        rw [hv] at hcv
        have hve : v = [] := by simpa using hcv.1
        subst hve
        have hue : u = [] := by simpa using h.2
        subst hue
        exact ⟨by simp [rstripN], by rw [h.1]; exact hcv.2⟩

theorem rstripN_idem (l : PyStr) : rstripN (rstripN l) = rstripN l := by
  induction l with
  | nil => rfl
  | cons c l ih =>
    rw [rstripN]
    by_cases h : (rstripN l).isEmpty = true ∧ isSpaceB c = true
    · rw [if_pos h]; rfl
    · rw [if_neg h, rstripN, ih, if_neg h]

theorem rstripN_head (l : PyStr) :
    rstripN l = [] ∨ (rstripN l).head? = l.head? := by
  cases l with
  | nil => exact Or.inl rfl
  | cons c l =>
    rw [rstripN]
    by_cases h : (rstripN l).isEmpty = true ∧ isSpaceB c = true
    · rw [if_pos h]; exact Or.inl rfl
    · rw [if_neg h]; exact Or.inr rfl

theorem dropWhile_rstripN (l : PyStr)
    (h : l.dropWhile isSpaceB = l) :
    (rstripN l).dropWhile isSpaceB = rstripN l := by
  rcases rstripN_head l with he | hh
  · rw [he]; rfl
  · cases hr : rstripN l with
    | nil => rfl
    | cons c r =>
      rw [hr] at hh
      cases l with
      | nil => simp [rstripN] at hr
      | cons a l =>
        simp only [List.head?_cons] at hh
        have hca : c = a := by injection hh
        have ha : isSpaceB a = false := head_not_space h
        rw [List.dropWhile_cons, if_neg (by simp [hca, ha])]

theorem stripN_fixed (l : PyStr)
    (h1 : l.dropWhile isSpaceB = l) (h2 : rstripN l = l) : stripN l = l := by
  unfold stripN
  rw [h1, h2]

theorem stripN_noLead (l : PyStr) :
    (stripN l).dropWhile isSpaceB = stripN l :=
  dropWhile_rstripN _ (List.dropWhile_idempotent isSpaceB l)

theorem stripN_noTrail (l : PyStr) : rstripN (stripN l) = stripN l :=
  rstripN_idem _

theorem stripN_idem (l : PyStr) : stripN (stripN l) = stripN l :=
  stripN_fixed _ (stripN_noLead l) (stripN_noTrail l)

theorem stripN_titleN_stripN (l : PyStr) :
    stripN (titleN (stripN l)) = titleN (stripN l) := by
  have hshape : (titleN (stripN l)).map isSpaceB = (stripN l).map isSpaceB :=
    map_isSpaceB_titleAux false (stripN l)
  exact stripN_fixed _
    (dropWhile_eq_self_shape hshape.symm (stripN_noLead l))
    (rstripN_eq_self_shape hshape.symm (stripN_noTrail l))

theorem isAlphaB_of_toLowerN_eq {a c : Nat} (h : toLowerN a = toLowerN c) :
    isAlphaB a = isAlphaB c := by
  unfold toLowerN at h
  unfold isAlphaB
  rw [decide_eq_decide]
  split at h <;> split at h <;> omega

theorem toUpperN_of_toLowerN_eq {a c : Nat} (h : toLowerN a = toLowerN c) :
    toUpperN a = toUpperN c := by
  unfold toLowerN at h
  unfold toUpperN
  split <;> split <;> (split at h <;> split at h <;> omega)

theorem eq_of_toLowerN_eq {a c : Nat} (h : toLowerN a = toLowerN c)
    (ha : isAlphaB a = false) : a = c := by
  unfold toLowerN at h
  unfold isAlphaB at ha
  rw [decide_eq_false_iff_not] at ha
  split at h <;> split at h <;> omega

theorem titleChar_congr (b : Bool) {a c : Nat} (h : toLowerN a = toLowerN c) :
    titleChar b a = titleChar b c := by
  have halpha := isAlphaB_of_toLowerN_eq h
  unfold titleChar
  rw [halpha]
  by_cases hc : isAlphaB c = true
  · rw [if_pos hc, if_pos hc]
    cases b
    · simpa using toUpperN_of_toLowerN_eq h
    · simpa using h
  · rw [if_neg hc, if_neg hc]
    exact eq_of_toLowerN_eq h (by rw [halpha]; simpa using hc)

theorem titleAux_congr (b : Bool) {u v : PyStr}
    (h : u.map toLowerN = v.map toLowerN) : titleAux b u = titleAux b v := by
  induction u generalizing b v with
  | nil =>
    cases v with
    | nil => rfl
    | cons c v => simp at h
  | cons a u ih =>
    cases v with
    | nil => simp at h
    | cons c v =>
      simp only [List.map_cons, List.cons.injEq] at h
      simp only [titleAux]
      rw [titleChar_congr b h.1, isAlphaB_of_toLowerN_eq h.1, ih _ h.2]

theorem natDigits_mem {n c : Nat} (hc : c ∈ natDigits n) :
    48 ≤ c ∧ c ≤ 57 := by
  induction n using Nat.strong_induction_on with
  | _ n ih =>
    rw [natDigits] at hc
    split at hc
    · simp at hc
      omega
    · rcases List.mem_append.mp hc with h1 | h2
      · exact ih (n / 10) (Nat.div_lt_self (by omega) (by omega)) h1
      · simp at h2
        omega

theorem natDigits_ne_nil (n : Nat) : natDigits n ≠ [] := by
  rw [natDigits]
  split <;> simp

theorem parseNatL_natDigits (n : Nat) : parseNatL (natDigits n) = some n := by
  have hall : ∀ m, (natDigits m).all isDigitB = true := by
    intro m
    rw [List.all_eq_true]
    intro c hc
    have := natDigits_mem hc
    unfold isDigitB
    simpa using this
  have hfold : ∀ m, (natDigits m).foldl (fun a c => a * 10 + (c - 48)) 0 = m := by
    intro m
    induction m using Nat.strong_induction_on with
    | _ m ih =>
      rw [natDigits]
      split
      · simp
      · rw [List.foldl_append, ih (m / 10) (Nat.div_lt_self (by omega) (by omega))]
        simp
        omega
  unfold parseNatL
  rw [if_neg, hfold]
  simp [natDigits_ne_nil n, hall n]

theorem natDigits2_mem {n c : Nat} (hc : c ∈ natDigits2 n) :
    48 ≤ c ∧ c ≤ 57 := by
  rw [natDigits2] at hc
  split at hc
  · simp at hc
    omega
  · exact natDigits_mem hc

theorem parseNatL_natDigits2 (n : Nat) : parseNatL (natDigits2 n) = some n := by
  rw [natDigits2]
  split
  · unfold parseNatL
    rw [if_neg]
    · simp
    · simp [isDigitB]
      omega
  · exact parseNatL_natDigits n

theorem splitAux_sepFree (sep : Nat) (a : PyStr) (cs acc : PyStr)
    (h : ∀ c ∈ a, c ≠ sep) :
    splitAux sep (a ++ cs) acc = splitAux sep cs (a.reverse ++ acc) := by
  induction a generalizing acc with
  | nil => simp
  | cons x a ih =>
    have hx : x ≠ sep := h x (by simp)
    simp only [List.cons_append, splitAux, if_neg hx, List.append_eq]
    rw [ih _ (fun c hc => h c (by simp [hc]))]
    simp

theorem splitAux_cons_sep (sep : Nat) (cs acc : PyStr) :
    splitAux sep (sep :: cs) acc = acc.reverse :: splitAux sep cs [] := by
  show (if sep = sep then acc.reverse :: splitAux sep cs []
    else splitAux sep cs (sep :: acc)) = _
  rw [if_pos rfl]

theorem splitAux_sepFree_nil (sep : Nat) (b acc : PyStr)
    (hb : ∀ c ∈ b, c ≠ sep) : splitAux sep b acc = [acc.reverse ++ b] := by
  have h := splitAux_sepFree sep b [] acc hb
  simp only [List.append_nil] at h
  rw [h]
  simp [splitAux]

theorem splitOnN_two (sep : Nat) (a b : PyStr) (ha : ∀ c ∈ a, c ≠ sep)
    (hb : ∀ c ∈ b, c ≠ sep) :
    splitOnN sep (a ++ sep :: b) = [a, b] := by
  unfold splitOnN
  rw [splitAux_sepFree sep a (sep :: b) [] ha, splitAux_cons_sep,
    splitAux_sepFree_nil sep b [] hb]
  simp

theorem splitOnN_three (sep : Nat) (a b c : PyStr) (ha : ∀ x ∈ a, x ≠ sep)
    (hb : ∀ x ∈ b, x ≠ sep) (hc : ∀ x ∈ c, x ≠ sep) :
    splitOnN sep (a ++ sep :: (b ++ sep :: c)) = [a, b, c] := by
  unfold splitOnN
  rw [splitAux_sepFree sep a _ [] ha, splitAux_cons_sep,
    splitAux_sepFree sep b _ [] hb, splitAux_cons_sep,
    splitAux_sepFree_nil sep c [] hc]
  simp

theorem parseHMS_mkHMS (h m s : Nat) :
    parseHMS (mkHMS h m s) = some ((h : ℚ) * 60 + (m : ℚ) + (s : ℚ) / 60) := by
  unfold parseHMS mkHMS
  rw [splitOnN_three 58 (natDigits h) (natDigits2 m) (natDigits2 s)
    (fun x hx => by have := natDigits_mem hx; omega)
    (fun x hx => by have := natDigits2_mem hx; omega)
    (fun x hx => by have := natDigits2_mem hx; omega)]
  simp [parseNatL_natDigits, parseNatL_natDigits2]

theorem mkHMS_contains_colon (h m s : Nat) : (mkHMS h m s).contains 58 = true := by
  unfold mkHMS
  simp [List.contains]

theorem mkHMS_no_dot (h m s : Nat) : ∀ x ∈ mkHMS h m s, x ≠ 46 := by
  intro x hx
  unfold mkHMS at hx
  simp only [List.mem_append, List.mem_cons] at hx
  rcases hx with h1 | h2 | h3 | h4 | h5
  · have := natDigits_mem h1; omega
  · omega
  · have := natDigits2_mem h3; omega
  · omega
  · have := natDigits2_mem h5; omega

theorem parseDuration_mkHMS (h m s : Nat) :
    parseDuration (mkHMS h m s) =
      some ((h : ℚ) * 60 + (m : ℚ) + (s : ℚ) / 60) := by
  unfold parseDuration
  rw [if_pos (mkHMS_contains_colon h m s), if_neg, parseHMS_mkHMS]
  intro hcon
  rcases List.contains_iff_exists_mem_beq.mp hcon with ⟨x, hx, hbeq⟩
  have hx46 : (46 : Nat) = x := by simpa using hbeq
  exact mkHMS_no_dot h m s x hx hx46.symm

theorem parseDuration_mkDHMS (d h m s : Nat) :
    parseDuration (mkDHMS d h m s) =
      some ((d : ℚ) * 1440 + ((h : ℚ) * 60 + (m : ℚ) + (s : ℚ) / 60)) := by
  unfold parseDuration
  rw [if_pos, if_pos]
  · unfold mkDHMS
    rw [splitOnN_two 46 (natDigits d) (mkHMS h m s)
      (fun x hx => by have := natDigits_mem hx; omega)
      (mkHMS_no_dot h m s)]
    simp [parseNatL_natDigits, parseHMS_mkHMS]
  · unfold mkDHMS
    simp
  · unfold mkDHMS mkHMS
    simp

/-!
Loader helper lemmas.
-/

theorem missingCols_eq_nil_iff (hs : List PyStr) :
    missingCols hs = [] ↔ ∀ c ∈ requiredCols, c ∈ hs.map headerNorm := by
  unfold missingCols
  rw [List.filter_eq_nil_iff]
  simp

theorem mem_missingCols (hs : List PyStr) (c : PyStr) :
    c ∈ missingCols hs ↔ c ∈ requiredCols ∧ c ∉ hs.map headerNorm := by
  unfold missingCols
  simp [List.mem_filter]

theorem length_filterMap_app (rows : List RawRow) :
    (rows.filterMap processRow_app).length =
      (rows.filter (fun r => (dateCoerce r.date).isSome)).length := by
  induction rows with
  | nil => rfl
  | cons r rows ih =>
    simp only [List.filterMap_cons, List.filter_cons]
    cases hd : dateCoerce r.date with
    | none =>
      have hr : processRow_app r = none := by
        unfold processRow_app
        rw [hd]
      simp [hr, hd, ih]
    | some t =>
      have hr : ∃ l, processRow_app r = some l := by
        unfold processRow_app
        rw [hd]
        exact ⟨_, rfl⟩
      rcases hr with ⟨l, hl⟩
      simp [hl, hd, ih]

/-!
The claims.
-/

/-- C1 (counterexample): the load-time person normalization does not
collapse internal whitespace, so a name with a doubled internal space
gets a different key than the single-spaced name. -/
theorem author_key_double_space_cex :
    normalizeAuthor (ofStr "jane  doe") ≠ normalizeAuthor (ofStr "jane doe") := by
  decide

/-- C1 (amended): two person names that agree after trimming surrounding
whitespace and folding case normalize to the same comparison key; internal
whitespace is preserved, not collapsed. -/
theorem author_key_case_trim_invariant (s t : PyStr)
    (h : (stripN s).map toLowerN = (stripN t).map toLowerN) :
    normalizeAuthor s = normalizeAuthor t := by
  unfold normalizeAuthor titleN
  exact titleAux_congr false h

/-- Witness for C1 at two names differing only in casing and
surrounding whitespace. -/
theorem author_key_case_trim_witness :
    normalizeAuthor (ofStr "  jane DOE") = normalizeAuthor (ofStr "Jane doe  ") :=
  author_key_case_trim_invariant (ofStr "  jane DOE") (ofStr "Jane doe  ") (by decide)

/-- C2 (counterexample): a retained row whose numeric field is
unparsable gets the value 0, not null. -/
theorem numeric_zero_fill_cex :
    processRow_rvu badNumRow = some badNumLoaded ∧
    badNumLoaded.procedure = some 0 ∧ badNumLoaded.procedure ≠ none := by
  decide

/-- C2 (amended): for every row with a parsable date, loading retains
the row and never fails; an empty, null, or unparsable numeric field is
set to 0 (by `fillna(0)`), never to null. -/
theorem numeric_zero_fill_retains (r : RawRow)
    (h : (dateCoerce r.date).isSome = true) :
    (processRow_rvu r).isSome = true ∧
    (processRow_rvu r).map LoadedRow.procedure =
      some (fillna0 (numCoerce r.procedure)) ∧
    (numCoerce r.procedure = none →
      (processRow_rvu r).map LoadedRow.procedure = some (some 0)) ∧
    (processRow_rvu r).map LoadedRow.procedure ≠ some none := by
  unfold processRow_rvu
  cases hd : dateCoerce r.date with
  | none => rw [hd] at h; simp at h
  | some t =>
    refine ⟨rfl, rfl, fun hn => ?_, ?_⟩
    · simp [fillna0, hn]
    · simp [fillna0]

/-- Witness for C2 at the row with the unparsable procedure count. -/
theorem numeric_zero_fill_witness :
    (processRow_rvu badNumRow).isSome = true ∧
    (processRow_rvu badNumRow).map LoadedRow.procedure =
      some (fillna0 (numCoerce badNumRow.procedure)) ∧
    (numCoerce badNumRow.procedure = none →
      (processRow_rvu badNumRow).map LoadedRow.procedure = some (some 0)) ∧
    (processRow_rvu badNumRow).map LoadedRow.procedure ≠ some none :=
  numeric_zero_fill_retains badNumRow (by decide)

/-- C3: each loader succeeds exactly when every required canonical
column is present after trimming and case folding; otherwise the load
fails as a whole, and the failure names exactly the canonical fields
that could not be matched. -/
theorem load_requires_all_columns (hs : List PyStr) (rows : List RawRow) :
    ((loadData_app hs rows).isSuccess = true ↔
      ∀ c ∈ requiredCols, c ∈ hs.map headerNorm) ∧
    ((loadData_rvu hs rows).isSuccess = true ↔
      ∀ c ∈ requiredCols, c ∈ hs.map headerNorm) ∧
    (∀ m, loadData_app hs rows = LoadResult.failure m →
      ∀ c, c ∈ m ↔ c ∈ requiredCols ∧ c ∉ hs.map headerNorm) ∧
    (∀ m, loadData_rvu hs rows = LoadResult.failure m →
      ∀ c, c ∈ m ↔ c ∈ requiredCols ∧ c ∉ hs.map headerNorm) := by
  unfold loadData_app loadData_rvu
  by_cases hempty : (missingCols hs).isEmpty = true
  · have hm : missingCols hs = [] := by simpa using hempty
    rw [if_pos hempty, if_pos hempty]
    refine ⟨?_, ?_, ?_, ?_⟩
    · simp only [LoadResult.isSuccess, true_iff]
      exact (missingCols_eq_nil_iff hs).mp hm
    · simp only [LoadResult.isSuccess, true_iff]
      exact (missingCols_eq_nil_iff hs).mp hm
    · intro m hcontra
      cases hcontra
    · intro m hcontra
      cases hcontra
  · have hne : missingCols hs ≠ [] := by simpa using hempty
    rw [if_neg hempty, if_neg hempty]
    rcases List.exists_mem_of_ne_nil _ hne with ⟨c0, hc0⟩
    have hc0' := (mem_missingCols hs c0).mp hc0
    refine ⟨?_, ?_, ?_, ?_⟩
    · simp only [LoadResult.isSuccess, Bool.false_eq_true, false_iff]
      intro hall
      exact hc0'.2 (hall c0 hc0'.1)
    · simp only [LoadResult.isSuccess, Bool.false_eq_true, false_iff]
      intro hall
      exact hc0'.2 (hall c0 hc0'.1)
    · intro m hm c
      injection hm with h1
      rw [← h1]
      exact mem_missingCols hs c
    · intro m hm c
      injection hm with h1
      rw [← h1]
      exact mem_missingCols hs c

/-- Witness for C3 at a header list missing the date column. -/
theorem load_requires_all_columns_witness :
    ofStr "date" ∈ missingCols [ofStr "Author"] ↔
      ofStr "date" ∈ requiredCols ∧
        ofStr "date" ∉ ([ofStr "Author"]).map headerNorm :=
  (load_requires_all_columns [ofStr "Author"] []).2.2.1
    (missingCols [ofStr "Author"]) (by decide) (ofStr "date")

/-- C4 (counterexample): a load that drops a row with an unparsable date
emits no operator message at all, so the count of dropped rows is not
reported. -/
theorem load_silent_drop_cex :
    loadData_app demoHeaders [badDateRow, goodRow] =
      LoadResult.success [goodLoadedApp] [] ∧
    processRow_app badDateRow = none := by
  decide

/-- C4 (amended): after a successful load every retained row has a
non-null date with no time-of-day component (a whole-day value), and
rows whose date fails to parse are dropped; but the count of dropped
rows is not reported — the success path emits no messages. -/
theorem load_dates_normalized_rows_dropped (hs : List PyStr)
    (rows : List RawRow) (out : List LoadedRowApp) (msgs : List PyStr)
    (h : loadData_app hs rows = LoadResult.success out msgs) :
    msgs = [] ∧
    out.length = (rows.filter (fun r => (dateCoerce r.date).isSome)).length ∧
    ∀ l ∈ out, ∃ n : ℤ, l.date = (n : ℚ) := by
  unfold loadData_app at h
  split at h
  · injection h with h1 h2
    subst h1
    subst h2
    refine ⟨rfl, length_filterMap_app rows, ?_⟩
    intro l hl
    rcases List.mem_filterMap.mp hl with ⟨r, _, hr⟩
    unfold processRow_app at hr
    cases hd : dateCoerce r.date with
    | none => rw [hd] at hr; cases hr
    | some t =>
      rw [hd] at hr
      injection hr with hr1
      rw [← hr1]
      exact ⟨floorQ t, rfl⟩
  · cases h

/-- Witness for C4 at a two-row table whose first row has an empty
date. -/
theorem load_dates_normalized_witness :
    ([] : List PyStr) = [] ∧
    ([goodLoadedApp] : List LoadedRowApp).length =
      (([badDateRow, goodRow]).filter
        (fun r => (dateCoerce r.date).isSome)).length ∧
    ∀ l ∈ ([goodLoadedApp] : List LoadedRowApp), ∃ n : ℤ, l.date = (n : ℚ) :=
  load_dates_normalized_rows_dropped demoHeaders [badDateRow, goodRow]
    [goodLoadedApp] [] (by decide)

/-- C5 (counterexample): because loading fills unparsable numerics with
0, adding a record with a null field to a loaded column changes its
mean (4 drops to 2). -/
theorem mean_zero_fill_cex :
    meanOpt (([Cell.num 4, Cell.blank]).map loadNumCell) = some 2 ∧
    meanOpt (([Cell.num 4]).map loadNumCell) = some 4 ∧
    meanOpt (([Cell.num 4, Cell.blank]).map loadNumCell) ≠
      meanOpt (([Cell.num 4]).map loadNumCell) := by
  with_unfolding_all decide

/-- C5 (amended): the mean aggregate itself excludes nulls from both
numerator and denominator (appending a null leaves it unchanged), and
zeros count in both; but the loaders replace null/unparsable numerics
with 0, so a loaded column has no nulls and its mean averages the
zero-filled values over all rows. -/
theorem mean_skipna_but_load_fills (xs : List (Option ℚ)) (cs : List Cell)
    (hcs : cs ≠ []) :
    meanOpt (xs ++ [none]) = meanOpt xs ∧
    meanOpt (cs.map loadNumCell) =
      some ((cs.map (fun c => (numCoerce c).getD 0)).sum / (cs.length : ℚ)) ∧
    ∀ x ∈ cs.map loadNumCell, x.isSome = true := by
  refine ⟨?_, ?_, ?_⟩
  · unfold meanOpt
    simp [List.filterMap_append]
  · unfold meanOpt loadNumCell fillna0
    rw [List.filterMap_map]
    have hcomp : (id ∘ fun c : Cell => some ((numCoerce c).getD 0)) =
        (fun c : Cell => some ((numCoerce c).getD 0)) := rfl
    rw [hcomp]
    have hfm : ∀ l : List Cell,
        List.filterMap (fun c => some ((numCoerce c).getD 0)) l =
          l.map (fun c => (numCoerce c).getD 0) := by
      intro l
      induction l with
      | nil => rfl
      | cons a l ih => simp [List.filterMap_cons, ih]
    rw [hfm cs]
    rw [if_neg (by simpa using hcs)]
    simp
  · intro x hx
    rcases List.mem_map.mp hx with ⟨c, _, rfl⟩
    rfl

/-- Witness for C5 at a two-cell column with one empty cell. -/
theorem mean_skipna_witness :
    meanOpt ([some (4 : ℚ)] ++ [none]) = meanOpt [some (4 : ℚ)] ∧
    meanOpt (([Cell.num 4, Cell.blank]).map loadNumCell) =
      some ((([Cell.num 4, Cell.blank]).map
        (fun c => (numCoerce c).getD 0)).sum /
        (([Cell.num 4, Cell.blank] : List Cell).length : ℚ)) ∧
    ∀ x ∈ ([Cell.num 4, Cell.blank]).map loadNumCell, x.isSome = true :=
  mean_skipna_but_load_fills [some 4] [Cell.num 4, Cell.blank] (by decide)

/-- C6: for valid clock components, the spec-modelled duration parser
maps `HH:MM:SS` to `hours*60 + minutes + seconds/60` minutes, a leading
day count in `D.HH:MM:SS` adds `D*24*60` minutes, and parsing the
formatted representation of `n` minutes yields exactly `n`. -/
theorem duration_hms_days_parse (d h m s n : Nat) (_hm : m < 60)
    (_hs : s < 60) :
    parseDuration (mkHMS h m s) =
      some ((h : ℚ) * 60 + (m : ℚ) + (s : ℚ) / 60) ∧
    parseDuration (mkDHMS d h m s) =
      some ((d : ℚ) * 1440 + ((h : ℚ) * 60 + (m : ℚ) + (s : ℚ) / 60)) ∧
    parseDuration (mkHMS (n / 60) (n % 60) 0) = some ((n : ℚ)) := by
  refine ⟨parseDuration_mkHMS h m s, parseDuration_mkDHMS d h m s, ?_⟩
  rw [parseDuration_mkHMS]
  congr 1
  have h60 : (n / 60) * 60 + n % 60 = n := by omega
  calc ((n / 60 : Nat) : ℚ) * 60 + ((n % 60 : Nat) : ℚ) + ((0 : Nat) : ℚ) / 60
      = ((n / 60 : Nat) : ℚ) * 60 + ((n % 60 : Nat) : ℚ) := by simp
    _ = (((n / 60) * 60 + n % 60 : Nat) : ℚ) := by push_cast; ring
    _ = (n : ℚ) := by rw [h60]

/-- Witness for C6 at one day, two hours, fifteen minutes, and at the
round trip of 90 minutes. -/
theorem duration_parse_witness :
    (15 : Nat) < 60 ∧ (0 : Nat) < 60 ∧
    (parseDuration (mkHMS 2 15 0) =
        some (((2 : Nat) : ℚ) * 60 + ((15 : Nat) : ℚ) + ((0 : Nat) : ℚ) / 60) ∧
      parseDuration (mkDHMS 1 2 15 0) =
        some (((1 : Nat) : ℚ) * 1440 +
          (((2 : Nat) : ℚ) * 60 + ((15 : Nat) : ℚ) + ((0 : Nat) : ℚ) / 60)) ∧
      parseDuration (mkHMS (90 / 60) (90 % 60) 0) = some (((90 : Nat) : ℚ))) :=
  ⟨by decide, by decide, duration_hms_days_parse 1 2 15 0 90 (by decide) (by decide)⟩

/-- C7 (counterexample): the app loader casts the shift column to int,
so the fractional shift weight 1/2 loads as 0 there, while the rvu
loader keeps it. -/
theorem shift_trunc_cex :
    numCoerce halfShiftRow.shift = some (mkRat 1 2) ∧
    (processRow_app halfShiftRow).map LoadedRowApp.shift = some 0 ∧
    (processRow_rvu halfShiftRow).map LoadedRow.shift =
      some (some (mkRat 1 2)) ∧
    truncQ (mkRat (-1) 2) = 0 ∧ truncQ (mkRat (-3) 2) = -1 := by
  decide

/-- C7 (amended): for a retained row with numeric shift value `q`, the
rvu loader preserves `q` exactly (fractional part included), while the
app loader truncates it toward zero via `.astype(int)`. -/
theorem shift_preserved_rvu_truncated_app (r : RawRow) (q : ℚ)
    (hd : (dateCoerce r.date).isSome = true)
    (hq : numCoerce r.shift = some q) :
    (processRow_rvu r).map LoadedRow.shift = some (some q) ∧
    (processRow_app r).map LoadedRowApp.shift = some (truncQ q) := by
  unfold processRow_rvu processRow_app
  cases hdd : dateCoerce r.date with
  | none => rw [hdd] at hd; simp at hd
  | some t => simp [fillna0, hq]

/-- Witness for C7 at the row with shift weight 1/2. -/
theorem shift_preserved_witness :
    (processRow_rvu halfShiftRow).map LoadedRow.shift =
      some (some (mkRat 1 2)) ∧
    (processRow_app halfShiftRow).map LoadedRowApp.shift =
      some (truncQ (mkRat 1 2)) :=
  shift_preserved_rvu_truncated_app halfShiftRow (mkRat 1 2)
    (by decide) (by decide)

/-- C8: `filter_data` returns exactly the rows whose date lies in the
inclusive range and, when the provider selection is non-empty, whose
author is selected; an empty selection applies no provider filter. -/
theorem filter_data_membership (df : List LoadedRowApp) (d1 d2 : ℚ)
    (provs : List PyStr) (r : LoadedRowApp) :
    r ∈ filter_data df d1 d2 provs ↔
      r ∈ df ∧ d1 ≤ r.date ∧ r.date ≤ d2 ∧
        (provs ≠ [] → r.author ∈ provs) := by
  unfold filter_data
  by_cases hp : provs.isEmpty = true
  · have hpe : provs = [] := by simpa using hp
    subst hpe
    simp [List.mem_filter, and_assoc]
  · have hpe : provs ≠ [] := by simpa using hp
    rw [if_neg hp]
    simp [List.mem_filter, and_assoc, hpe]
    tauto

/-- C9: after a successful rvu load, every numeric field of every
retained row is non-null, and a field whose coercion failed was
replaced by 0. -/
theorem load_numeric_non_null (hs : List PyStr) (rows : List RawRow)
    (out : List LoadedRow) (msgs : List PyStr)
    (h : loadData_rvu hs rows = LoadResult.success out msgs) :
    (∀ l ∈ out, l.procedure.isSome = true ∧ l.points.isSome = true ∧
      l.shift.isSome = true ∧ l.pointsHalfDay.isSome = true ∧
      l.procedureHalf.isSome = true) ∧
    (∀ r l, processRow_rvu r = some l →
      (numCoerce r.procedure = none → l.procedure = some 0) ∧
      (numCoerce r.points = none → l.points = some 0) ∧
      (numCoerce r.shift = none → l.shift = some 0) ∧
      (numCoerce r.pointsHalfDay = none → l.pointsHalfDay = some 0) ∧
      (numCoerce r.procedureHalf = none → l.procedureHalf = some 0)) := by
  constructor
  · intro l hl
    unfold loadData_rvu at h
    split at h
    · injection h with h1 h2
      subst h1
      rcases List.mem_filterMap.mp hl with ⟨r, _, hr⟩
      unfold processRow_rvu at hr
      cases hd : dateCoerce r.date with
      | none => rw [hd] at hr; cases hr
      | some t =>
        rw [hd] at hr
        injection hr with hr1
        rw [← hr1]
        exact ⟨rfl, rfl, rfl, rfl, rfl⟩
    · cases h
  · intro r l hr
    unfold processRow_rvu at hr
    cases hd : dateCoerce r.date with
    | none => rw [hd] at hr; cases hr
    | some t =>
      rw [hd] at hr
      injection hr with hr1
      rw [← hr1]
      exact ⟨fun hn => by simp [fillna0, hn], fun hn => by simp [fillna0, hn],
        fun hn => by simp [fillna0, hn], fun hn => by simp [fillna0, hn],
        fun hn => by simp [fillna0, hn]⟩

/-- Witness for C9 at a one-row table whose procedure count is
unparsable. -/
theorem load_numeric_non_null_witness :
    badNumLoaded.procedure.isSome = true ∧
    badNumLoaded.points.isSome = true ∧ badNumLoaded.shift.isSome = true ∧
    badNumLoaded.pointsHalfDay.isSome = true ∧
    badNumLoaded.procedureHalf.isSome = true :=
  (load_numeric_non_null demoHeaders [badNumRow] [badNumLoaded] []
    (by decide)).1 badNumLoaded (by decide)

/-- C10: the author-name normalization (strip surrounding whitespace,
then title-case) is idempotent. -/
theorem author_normalization_idempotent (s : PyStr) :
    normalizeAuthor (normalizeAuthor s) = normalizeAuthor s := by
  unfold normalizeAuthor
  rw [stripN_titleN_stripN s]
  exact titleAux_idem false _

end MILV
